import Mathlib

/-!
Verification development for the `pdfgen` PDF-generation library.

Each Go function relevant to the claims is embedded as an executable Lean
definition.  The byte sink (`io.Writer`) is modelled as an append-only trace:
a function that in Go writes formatted text to the sink here returns the list
of written chunks (or, where the exact characters matter, the list of
characters).  Machine integers are modelled as `Nat`/`Int` with explicit
truncation where Go performs a narrowing conversion; `float64` quantities are
modelled over `ℚ` with the transcendental functions `cos`, `sin` and the
constant `π` passed in as parameters, since the claims about them are purely
algebraic/structural.
-/

namespace Pdfgen

/-- Model of Go `strings.Replace(s, old, new, -1)` for a single-character
pattern `old`: every occurrence of `old` is replaced by `new`. -/
def replaceChar (old : Char) (new : List Char) (s : List Char) : List Char :=
  s.flatMap (fun c => if c = old then new else [c])

/-- `pdfstring` from the source: escapes backslash, then `(`, then `)`,
then carriage return, in that order, via four sequential replacements. -/
def pdfstring (s : List Char) : List Char :=
  replaceChar '\r' ['\\', 'r']
    (replaceChar ')' ['\\', ')']
      (replaceChar '(' ['\\', '(']
        (replaceChar '\\' ['\\', '\\'] s)))

/-- The per-character escaping rule: each escapable character receives exactly
one extra preceding backslash (carriage return becoming backslash-r); every
other character is left unchanged. -/
def escChar (c : Char) : List Char :=
  if c = '\\' then ['\\', '\\']
  else if c = '(' then ['\\', '(']
  else if c = ')' then ['\\', ')']
  else if c = '\r' then ['\\', 'r']
  else [c]

/-- The inverse unescape: reads one escape sequence or one plain character at
a time, failing on a dangling or unknown escape. -/
def unescape : List Char → Option (List Char)
  | [] => some []
  | c :: rest =>
    if c = '\\' then
      match rest with
      | [] => none
      | d :: rest2 =>
        if d = '\\' then (unescape rest2).map (fun t => '\\' :: t)
        else if d = '(' then (unescape rest2).map (fun t => '(' :: t)
        else if d = ')' then (unescape rest2).map (fun t => ')' :: t)
        else if d = 'r' then (unescape rest2).map (fun t => '\r' :: t)
        else none
    else (unescape rest).map (fun t => c :: t)

lemma replaceChar_append (old : Char) (new : List Char) (a b : List Char) :
    replaceChar old new (a ++ b) = replaceChar old new a ++ replaceChar old new b := by
  simp [replaceChar]

lemma pdfstring_append (a b : List Char) :
    pdfstring (a ++ b) = pdfstring a ++ pdfstring b := by
  simp [pdfstring, replaceChar_append]

lemma pdfstring_single (c : Char) : pdfstring [c] = escChar c := by
  by_cases h1 : c = '\\'
  · subst h1; decide
  · by_cases h2 : c = '('
    · subst h2; decide
    · by_cases h3 : c = ')'
      · subst h3; decide
      · by_cases h4 : c = '\r'
        · subst h4; decide
        · simp [pdfstring, replaceChar, escChar, h1, h2, h3, h4]

lemma pdfstring_eq_flatMap (s : List Char) : pdfstring s = s.flatMap escChar := by
  induction s with
  | nil => decide
  | cons c s ih =>
    have : (c :: s) = [c] ++ s := rfl
    rw [this, pdfstring_append, pdfstring_single]
    simp [List.flatMap_append, ih]

lemma unescape_pdfstring (s : List Char) : unescape (pdfstring s) = some s := by
  induction s with
  | nil => decide
  | cons c s ih =>
    have hc : pdfstring (c :: s) = escChar c ++ pdfstring s := by
      rw [show (c :: s) = [c] ++ s from rfl, pdfstring_append, pdfstring_single]
    rw [hc]
    by_cases h1 : c = '\\'
    · subst h1; simp [escChar, unescape, ih]
    · by_cases h2 : c = '('
      · subst h2; simp [escChar, unescape, ih]
      · by_cases h3 : c = ')'
        · subst h3; simp [escChar, unescape, ih]
        · by_cases h4 : c = '\r'
          · subst h4; simp [escChar, unescape, ih]
          · rw [show escChar c = [c] from by simp [escChar, h1, h2, h3, h4]]
            rw [List.singleton_append, unescape.eq_def]
            simp [h1, ih]

/-- C6: escaping maps each backslash, parenthesis and carriage return of the
input to a backslash-prefixed pair (carriage return becoming backslash-r) and
leaves every other character unchanged; on the concrete input `a(b)c\d` it
produces the expected escaped form; and the inverse unescape recovers the
original string, for every input. -/
theorem c6_pdfstring_escaping :
    (∀ s : List Char, pdfstring s = s.flatMap escChar) ∧
    pdfstring ("a(b)c\\d".toList) = ("a\\(b\\)c\\\\d".toList) ∧
    (∀ s : List Char, unescape (pdfstring s) = some s) :=
  ⟨pdfstring_eq_flatMap, by decide, unescape_pdfstring⟩

/-! ## Polygon -/

/-- One formatted write performed by `Polygon`: the color-and-move-to prefix,
a line-to, or the final close-and-fill write. -/
inductive PolyChunk where
  | colorMove (color : String) (x0 y0 : ℚ)
  | lineTo (x y : ℚ)
  | closeFill (x0 y0 : ℚ)
deriving DecidableEq

/-- The body of `Polygon`'s `for` loop over indices `1 .. len-1`: each visited
index reads both coordinate lists and writes one line-to chunk.  An
out-of-bounds read yields `none` (a Go panic). -/
def polyLoop (x y : List ℚ) : List ℕ → Option (List PolyChunk)
  | [] => some []
  | i :: is => do
    let xi ← x[i]?
    let yi ← y[i]?
    let rest ← polyLoop x y is
    pure (PolyChunk.lineTo xi yi :: rest)

/-- `Polygon` from the source.  The result is `none` when the Go code would
index out of bounds (a runtime panic); otherwise `some (chunks, err)` where
`chunks` is the write trace and `err` is the failure the function signals to
its caller.  The Go function has no error return and writes nothing on the
length-mismatch path, so that path yields `some ([], none)`. -/
def Polygon (x y : List ℚ) (color : String) : Option (List PolyChunk × Option Unit) :=
  if x.length ≠ y.length then some ([], none)
  else do
    let x0 ← x[0]?
    let y0 ← y[0]?
    let rest ← polyLoop x y (List.range' 1 (x.length - 1))
    pure (PolyChunk.colorMove color x0 y0 :: rest ++ [PolyChunk.closeFill x0 y0], none)

lemma polygon_loop_isSome (x y : List ℚ) (l : List ℕ)
    (hl : ∀ i ∈ l, i < x.length ∧ i < y.length) :
    (polyLoop x y l).isSome := by
  induction l with
  | nil => rfl
  | cons i l ih =>
    have hi := hl i (List.mem_cons_self i l)
    have hx : x[i]? = some (x.get ⟨i, hi.1⟩) := List.getElem?_eq_getElem hi.1
    have hy : y[i]? = some (y.get ⟨i, hi.2⟩) := List.getElem?_eq_getElem hi.2
    have hrest := ih (fun j hj => hl j (List.mem_cons_of_mem i hj))
    obtain ⟨r, hr⟩ := Option.isSome_iff_exists.mp hrest
    simp [polyLoop, hx, hy, hr]

/-- C3 (amended): on every length-mismatched pair of coordinate lists,
`Polygon` writes no bytes and returns silently, signalling no failure. -/
theorem c3_polygon_mismatch_silent (x y : List ℚ) (color : String)
    (h : x.length ≠ y.length) : Polygon x y color = some ([], none) := by
  simp [Polygon, h]

/-- Witness for `c3_polygon_mismatch_silent` at the concrete mismatched pair
`x = [0]`, `y = []`. -/
theorem c3_polygon_mismatch_silent_witness :
    Polygon [(0 : ℚ)] [] "red" = some ([], none) :=
  c3_polygon_mismatch_silent [(0 : ℚ)] [] "red" (by decide)

/-- C3 counterexample: at the mismatched input `x = [0]`, `y = []` the call
completes having written nothing, with its failure component `none`: no
failure is signalled to the caller, contradicting the claim that the
failure is reported rather than silently swallowed. -/
theorem c3_polygon_no_signal_counterexample :
    Polygon [(0 : ℚ)] [] "red" = some ([], none) ∧
    ∀ e : Unit, Polygon [(0 : ℚ)] [] "red" ≠ some ([], some e) := by
  constructor
  · decide
  · intro e
    cases e
    decide

/-- C9: with equal-length lists the mismatch guard does not fire, and the very
first access reads element 0 of each list: on the empty pair this is
out-of-bounds (the embedding returns `none`, modelling the Go panic), and the
operation succeeds exactly when the lists are non-empty. -/
theorem c9_polygon_empty_oob :
    (∀ color : String, Polygon [] [] color = none) ∧
    (∀ (x y : List ℚ) (color : String), x.length = y.length →
      ((Polygon x y color).isSome ↔ x ≠ [])) := by
  constructor
  · intro color
    simp [Polygon]
  · intro x y color h
    constructor
    · intro hs
      intro hx
      subst hx
      have hy : y = [] := List.length_eq_zero.mp h.symm
      subst hy
      simp [Polygon] at hs
    · intro hx
      obtain ⟨a, x', rfl⟩ := List.exists_cons_of_ne_nil hx
      have hy : y ≠ [] := by
        intro hy
        subst hy
        simp at h
      obtain ⟨b, y', rfl⟩ := List.exists_cons_of_ne_nil hy
      have hmap := polygon_loop_isSome (a :: x') (b :: y')
        (List.range' 1 ((a :: x').length - 1))
        (by
          intro i hi
          have := List.mem_range'.mp hi
          constructor
          · omega
          · have hlen : (a :: x').length = (b :: y').length := h
            omega)
      obtain ⟨r, hr⟩ := Option.isSome_iff_exists.mp hmap
      have hr' : polyLoop (a :: x') (b :: y') (List.range' 1 x'.length) = some r := by
        simpa using hr
      have hxy : x'.length = y'.length := by
        simpa using h
      rw [hxy] at hr'
      simp [Polygon, hxy, hr']

/-- Witness for `c9_polygon_empty_oob`: the empty pair fails while the
equal-length singleton pair succeeds. -/
theorem c9_polygon_empty_oob_witness :
    Polygon ([] : List ℚ) [] "red" = none ∧
    (Polygon [(1 : ℚ)] [(2 : ℚ)] "red").isSome := by
  constructor
  · exact c9_polygon_empty_oob.1 "red"
  · exact (c9_polygon_empty_oob.2 [(1 : ℚ)] [(2 : ℚ)] "red" rfl).mpr (by decide)

/-! ## Document / object model -/

/-- The object references written into the catalog's `/Kids` array by the
loop in `root`: `objref` starts at 3 and advances by 2 per page. -/
def rootKids : ℕ → ℕ → List ℕ
  | 0, _ => []
  | n + 1, objref => objref :: rootKids n (objref + 2)

/-- The kid list as `root` writes it, starting at object reference 3. -/
def kidRefs (npages : ℕ) : List ℕ := rootKids npages 3

/-- The page-object / content-object numbers `NewPage(n)` emits:
`obj := 2*n + 1` and `ref := obj + 1`, as in the source. -/
def newPageObj (n : ℕ) : ℕ × ℕ := (2 * n + 1, 2 * n + 1 + 1)

/-- One chunk written to the output sink by the document-level functions. -/
inductive Item where
  | header
  | catalog (npages : ℕ) (kids : List ℕ)
  | resources
  | pageOpen (obj ref : ℕ)
  | endStream
  | trailer (size : ℕ)
deriving DecidableEq

/-- The document state: the write trace so far and the object counter. -/
structure Doc where
  out : List Item
  objectcount : ℕ
deriving DecidableEq

/-- `NewDoc`: a fresh document with an empty sink and `objectcount = 0`. -/
def NewDoc : Doc := ⟨[], 0⟩

/-- `root`: writes the catalog object (object 1) with its kid list and
advances the object counter by one. -/
def root (d : Doc) (npages : ℕ) : Doc :=
  { out := d.out ++ [Item.catalog npages (kidRefs npages)],
    objectcount := d.objectcount + 1 }

/-- `resources`: writes the resource object (object 2) and advances the
object counter by one. -/
def resources (d : Doc) : Doc :=
  { out := d.out ++ [Item.resources], objectcount := d.objectcount + 1 }

/-- `Init`: writes the header line, then the catalog, then the resources. -/
def Init (d : Doc) (n : ℕ) : Doc :=
  resources (root { d with out := d.out ++ [Item.header] } n)

/-- `NewPage`: writes the complete page object numbered `2*n+1` (whose
`/Contents` points at `2*n+2`) and opens the content-stream object `2*n+2`;
advances the object counter by one. -/
def NewPage (d : Doc) (n : ℕ) : Doc :=
  { out := d.out ++ [Item.pageOpen (newPageObj n).1 (newPageObj n).2],
    objectcount := d.objectcount + 1 }

/-- `EndPage`: terminates the open content stream; advances the counter. -/
def EndPage (d : Doc) : Doc :=
  { out := d.out ++ [Item.endStream], objectcount := d.objectcount + 1 }

/-- `EndDoc`: writes the trailer carrying the current object counter as the
declared `/Size`. -/
def EndDoc (d : Doc) : Doc :=
  { d with out := d.out ++ [Item.trailer d.objectcount] }

/-- Number of top-level objects (`N 0 obj` blocks) present in a write trace:
the catalog and resource objects contribute one each, and each `NewPage`
write contributes two (the page object and the content-stream object it
opens). -/
def countObjs (items : List Item) : ℕ :=
  (items.map fun it =>
    match it with
    | Item.catalog _ _ => 1
    | Item.resources => 1
    | Item.pageOpen _ _ => 2
    | _ => 0).sum

/-- The well-formed page sequence: `k` paired `NewPage`/`EndPage` calls with
consecutive page arguments starting at `i`. -/
def runPages : Doc → ℕ → ℕ → Doc
  | d, 0, _ => d
  | d, k + 1, i => runPages (EndPage (NewPage d i)) k (i + 1)

lemma rootKids_get : ∀ (n s i : ℕ), i < n → (rootKids n s)[i]? = some (s + 2 * i) := by
  intro n
  induction n with
  | zero => intro s i h; omega
  | succ m ih =>
    intro s i h
    cases i with
    | zero => simp [rootKids]
    | succ j =>
      have hj : j < m := by omega
      have := ih (s + 2) j hj
      simp only [rootKids, List.getElem?_cons_succ, this]
      congr 1
      omega

lemma kidRefs_get (npages i : ℕ) (h : i < npages) :
    (kidRefs npages)[i]? = some (2 * i + 3) := by
  rw [kidRefs, rootKids_get npages 3 i h]
  congr 1
  omega

/-- C1 counterexample: already for `pageCount = 1` and page index `i = 0`,
the 0-th kid reference written by `Init` is object 3, while `NewPage(0)`
emits page object `2*0+1 = 1`, so the kid list does not match what
`NewPage(i)` emits. -/
theorem c1_newpage_mismatch_counterexample :
    (kidRefs 1)[0]? ≠ some (newPageObj 0).1 := by
  decide

/-- C1 (amended): for every page index `i` in `[0, pageCount)` the catalog's
`i`-th kid reference is `2*i+3`, but `NewPage` numbers pages with a 1-based
argument: `NewPage(n)` emits page object `2*n+1` whose `/Contents` reference
is `2*n+2`, so the `i`-th kid matches the page object emitted by
`NewPage(i+1)`, whose content-stream object is `2*i+4`. -/
theorem c1_object_numbering_amended (d : Doc) (npages i : ℕ) (h : i < npages) :
    (kidRefs npages)[i]? = some (2 * i + 3) ∧
    (NewPage d (i + 1)).out = d.out ++ [Item.pageOpen (2 * i + 3) (2 * i + 4)] ∧
    (newPageObj (i + 1)).1 = 2 * i + 3 ∧ (newPageObj (i + 1)).2 = 2 * i + 4 := by
  have h1 : 2 * (i + 1) + 1 = 2 * i + 3 := by omega
  have h2 : 2 * (i + 1) + 1 + 1 = 2 * i + 4 := by omega
  refine ⟨kidRefs_get npages i h, ?_, by simp [newPageObj, h1], by simp [newPageObj, h2]⟩
  simp only [NewPage, newPageObj, h1, h2]

/-- Witness for `c1_object_numbering_amended` at `pageCount = 2`, `i = 1`. -/
theorem c1_object_numbering_amended_witness :
    (kidRefs 2)[1]? = some 5 ∧
    (NewPage NewDoc 2).out = [Item.pageOpen 5 6] :=
  ⟨(c1_object_numbering_amended NewDoc 2 1 (by decide)).1,
   (c1_object_numbering_amended NewDoc 2 1 (by decide)).2.1⟩

lemma countObjs_append (a b : List Item) :
    countObjs (a ++ b) = countObjs a + countObjs b := by
  simp [countObjs]

lemma runPages_objectcount : ∀ (k : ℕ) (d : Doc) (i : ℕ),
    (runPages d k i).objectcount = d.objectcount + 2 * k := by
  intro k
  induction k with
  | zero => intro d i; simp [runPages]
  | succ m ih =>
    intro d i
    rw [runPages, ih]
    simp [EndPage, NewPage]
    omega

lemma runPages_countObjs : ∀ (k : ℕ) (d : Doc) (i : ℕ),
    countObjs (runPages d k i).out = countObjs d.out + 2 * k := by
  intro k
  induction k with
  | zero => intro d i; simp [runPages]
  | succ m ih =>
    intro d i
    rw [runPages, ih]
    simp [EndPage, NewPage, countObjs_append, countObjs]
    omega

/-- C4: for every `pageCount ≥ 1`, the run
`Init(pageCount)`, then `pageCount` paired `NewPage`/`EndPage` calls, then
`EndDoc`, declares trailer `/Size 2 + 2*pageCount`, which equals the number
of top-level objects actually written. -/
theorem c4_trailer_size (n : ℕ) (h : 1 ≤ n) :
    (EndDoc (runPages (Init NewDoc n) n 0)).out.getLast?
      = some (Item.trailer (2 + 2 * n)) ∧
    countObjs (EndDoc (runPages (Init NewDoc n) n 0)).out = 2 + 2 * n := by
  have hcount : (runPages (Init NewDoc n) n 0).objectcount = 2 + 2 * n := by
    rw [runPages_objectcount]
    simp [Init, root, resources, NewDoc]
  constructor
  · simp [EndDoc, hcount]
  · have hinit : countObjs (Init NewDoc n).out = 2 := by
      simp [Init, root, resources, NewDoc, countObjs]
    rw [EndDoc, countObjs_append, runPages_countObjs, hinit]
    simp [countObjs]

/-- Witness for `c4_trailer_size` at `pageCount = 1`. -/
theorem c4_trailer_size_witness :
    (EndDoc (runPages (Init NewDoc 1) 1 0)).out.getLast? = some (Item.trailer 4) ∧
    countObjs (EndDoc (runPages (Init NewDoc 1) 1 0)).out = 4 :=
  c4_trailer_size 1 (by decide)

/-! ## Exact characters of the page and trailer writes -/

/-- One decimal digit character, as Go `%d` prints it (arguments 0-9). -/
def digitToChar (d : ℕ) : Char :=
  if d = 0 then '0' else if d = 1 then '1' else if d = 2 then '2'
  else if d = 3 then '3' else if d = 4 then '4' else if d = 5 then '5'
  else if d = 6 then '6' else if d = 7 then '7' else if d = 8 then '8' else '9'

def toDigitsAux : ℕ → ℕ → List Char → List Char
  | 0, _, acc => acc
  | fuel + 1, n, acc =>
    if n < 10 then digitToChar n :: acc
    else toDigitsAux fuel (n / 10) (digitToChar (n % 10) :: acc)

/-- Decimal rendering of a natural number, modelling Go `%d`. -/
def toDigits (n : ℕ) : List Char := toDigitsAux (n + 1) n []

/-- The characters `newpagefmt` produces for arguments `(obj, ref1, ref2)`. -/
def newpagefmtChars (obj ref1 ref2 : ℕ) : List Char :=
  toDigits obj ++ (" 0 obj\n<</Type /Page /Parent 1 0 R /Resources 2 0 R /Contents ").toList
    ++ toDigits ref1 ++ (" 0 R>>\nendobj\n\n").toList
    ++ toDigits ref2 ++ (" 0 obj\n<</Length 0>>\nstream\n").toList

/-- The exact characters `NewPage(n)` writes: `newpagefmt` applied to
`(obj, ref, ref)` with `obj = 2*n+1`, `ref = 2*n+2`. -/
def newPageOut (n : ℕ) : List Char :=
  newpagefmtChars (newPageObj n).1 (newPageObj n).2 (newPageObj n).2

/-- The exact characters `EndPage` writes. -/
def endPageChars : List Char := ("endstream\nendobj\n\n").toList

/-- The exact characters `EndDoc` writes: `endfmt` applied to the size. -/
def endDocChars (size : ℕ) : List Char :=
  ("trailer\n<</Size ").toList ++ toDigits size ++ (" /Root 1 0 R >>\n%%EOF\n").toList

lemma digitToChar_ne_L (d : ℕ) : digitToChar d ≠ 'L' := by
  unfold digitToChar
  repeat' split
  all_goals decide

lemma toDigitsAux_ne_L : ∀ (fuel n : ℕ) (acc : List Char),
    (∀ c ∈ acc, c ≠ 'L') → ∀ c ∈ toDigitsAux fuel n acc, c ≠ 'L' := by
  intro fuel
  induction fuel with
  | zero => intro n acc h; exact h
  | succ m ih =>
    intro n acc h c hc
    rw [toDigitsAux] at hc
    by_cases hn : n < 10
    · rw [if_pos hn] at hc
      rcases List.mem_cons.mp hc with h1 | h2
      · rw [h1]; exact digitToChar_ne_L n
      · exact h c h2
    · rw [if_neg hn] at hc
      refine ih (n / 10) (digitToChar (n % 10) :: acc) ?_ c hc
      intro c' hc'
      rcases List.mem_cons.mp hc' with h1 | h2
      · rw [h1]; exact digitToChar_ne_L (n % 10)
      · exact h c' h2

lemma toDigits_ne_L (n : ℕ) : ∀ c ∈ toDigits n, c ≠ 'L' :=
  toDigitsAux_ne_L (n + 1) n [] (by intro c hc; cases hc)

lemma sublist_pattern_append_right {α : Type} (a : List α) {l b : List α}
    (h : l <:+: b) : l <:+: a ++ b := by
  obtain ⟨s, t, ht⟩ := h
  exact ⟨a ++ s, t, by rw [← ht]; simp⟩

lemma mem_of_pattern_in {α : Type} {l b : List α} {c : α} (h : l <:+: b) (hc : c ∈ l) :
    c ∈ b := by
  obtain ⟨s, t, ht⟩ := h
  rw [← ht]
  simp [hc]

/-- C10: every content-stream object opened by `NewPage` declares
`/Length 0` in its dictionary, for every page index; `EndPage` writes only
the fixed `endstream`/`endobj` characters and `EndDoc` writes only the
trailer, neither containing any `/Length` entry that could revise the
declared length. -/
theorem c10_length_always_zero :
    (∀ n : ℕ, ("<</Length 0>>\nstream\n").toList <:+: newPageOut n) ∧
    endPageChars = ("endstream\nendobj\n\n").toList ∧
    ¬ (("/Length").toList <:+: endPageChars) ∧
    (∀ size : ℕ, ¬ (("/Length").toList <:+: endDocChars size)) := by
  refine ⟨?_, rfl, ?_, ?_⟩
  · intro n
    rw [newPageOut, newpagefmtChars]
    apply sublist_pattern_append_right
    exact ⟨(" 0 obj\n").toList, [], by decide⟩
  · intro hinf
    have hL : 'L' ∈ endPageChars := mem_of_pattern_in hinf (by decide)
    revert hL
    decide
  · intro size hinf
    have hL : 'L' ∈ endDocChars size := mem_of_pattern_in hinf (by decide)
    rw [endDocChars] at hL
    rcases List.mem_append.mp hL with h1 | h2
    · rcases List.mem_append.mp h1 with h3 | h4
      · revert h3; decide
      · exact toDigits_ne_L size 'L' h4 rfl
    · revert h2; decide

/-! ## Pixel normalizer -/

/-- `encodeNRGBAStream`: straight (non-premultiplied) alpha.  The flat pixel
buffer holds 4 bytes per pixel; the R, G, B bytes of each pixel are copied
directly into the output and the alpha byte is dropped. -/
def encodeNRGBAStream : List ℕ → List ℕ
  | r :: g :: b :: _ :: rest => r :: g :: b :: encodeNRGBAStream rest
  | _ => []

/-- `encodeRGBAStream`: premultiplied alpha.  When the pixel's alpha byte is
nonzero, each channel is un-premultiplied as `uint16(c) * 0xff / a` and
truncated to a byte; when alpha is zero the preallocated output bytes are
left at zero. -/
def encodeRGBAStream : List ℕ → List ℕ
  | r :: g :: b :: a :: rest =>
    (if a ≠ 0 then
      [(r * 255) % 65536 / a % 256, (g * 255) % 65536 / a % 256,
       (b * 255) % 65536 / a % 256]
     else [0, 0, 0]) ++ encodeRGBAStream rest
  | _ => []

/-- One pixel of the generic path: `RGBA()` yields 16-bit premultiplied
channels as `uint32`; when alpha is nonzero each channel becomes
`(c * 65535 / a) >> 8` truncated to a byte; when alpha is zero the three
output bytes are zero (opaque black). -/
def genericPixel (p : ℕ × ℕ × ℕ × ℕ) : List ℕ :=
  if p.2.2.2 ≠ 0 then
    [p.1 * 65535 / p.2.2.2 / 256 % 256,
     p.2.1 * 65535 / p.2.2.2 / 256 % 256,
     p.2.2.1 * 65535 / p.2.2.2 / 256 % 256]
  else [0, 0, 0]

/-- `encodeImageStream`: the generic per-pixel path, row-major over the
bounds `[minX, minX+dx) × [minY, minY+dy)`. -/
def encodeImageStream (pixAt : ℤ → ℤ → ℕ × ℕ × ℕ × ℕ) (minX minY : ℤ)
    (dx dy : ℕ) : List ℕ :=
  (List.range dy).flatMap (fun y => (List.range dx).flatMap (fun x =>
    genericPixel (pixAt (minX + x) (minY + y))))

lemma flatMap_eq_replicate {α β : Type} (l : List β) (f : β → List α) (v : α)
    (k : ℕ) (h : ∀ b ∈ l, f b = List.replicate k v) :
    l.flatMap f = List.replicate (l.length * k) v := by
  induction l with
  | nil => simp
  | cons b l ih =>
    rw [List.flatMap_cons, h b (List.mem_cons_self b l),
      ih (fun b' hb' => h b' (List.mem_cons_of_mem b hb')),
      show (b :: l).length * k = k + l.length * k from by
        simp [Nat.succ_mul]; omega,
      List.replicate_add]

lemma encodeRGBAStream_zero_alpha : ∀ (k : ℕ) (pix : List ℕ),
    pix.length = 4 * k → (∀ i, pix.getD (4 * i + 3) 0 = 0) →
    encodeRGBAStream pix = List.replicate (3 * k) 0 := by
  intro k
  induction k with
  | zero =>
    intro pix hlen _
    have : pix = [] := List.length_eq_zero.mp (by omega)
    subst this
    rfl
  | succ m ih =>
    intro pix hlen ha
    match pix, hlen with
    | r :: g :: b :: a :: rest, hlen =>
      have ha0 : a = 0 := by
        have := ha 0
        simpa using this
      subst ha0
      have hrest : encodeRGBAStream rest = List.replicate (3 * m) 0 := by
        refine ih rest (by simp at hlen; omega) ?_
        intro i
        have := ha (i + 1)
        have hidx : 4 * (i + 1) + 3 = (4 * i + 3) + 4 := by omega
        rw [hidx] at this
        simpa using this
      rw [encodeRGBAStream, if_neg (by simp), hrest,
        show 3 * (m + 1) = 3 + 3 * m from by omega, List.replicate_add]
      rfl

lemma encodeNRGBAStream_length : ∀ (k : ℕ) (pix : List ℕ),
    pix.length = 4 * k → (encodeNRGBAStream pix).length = 3 * k := by
  intro k
  induction k with
  | zero =>
    intro pix hlen
    have : pix = [] := List.length_eq_zero.mp (by omega)
    subst this
    rfl
  | succ m ih =>
    intro pix hlen
    match pix, hlen with
    | r :: g :: b :: a :: rest, hlen =>
      have hrest := ih rest (by simp at hlen; omega)
      rw [encodeNRGBAStream]
      simp [hrest]
      omega

/-- C5 counterexample: the 1×1 straight-alpha (NRGBA) raster whose single
pixel is `(7, 0, 0, 0)` has alpha 0 everywhere, yet the normalizer output is
`[7, 0, 0]`, not all-zero: the straight-alpha path copies the stored color
channels and never applies the zero-alpha-to-black rule. -/
theorem c5_nrgba_zero_alpha_counterexample :
    encodeNRGBAStream [7, 0, 0, 0] = [7, 0, 0] ∧
    encodeNRGBAStream [7, 0, 0, 0] ≠ List.replicate (3 * 1) 0 := by
  decide

/-- C5 (amended): for a raster of `w × h` pixels with alpha 0 at every pixel,
the premultiplied-alpha path and the generic per-pixel path each produce
exactly `3*w*h` zero bytes; the straight-alpha (NRGBA) path still produces
exactly `3*w*h` bytes but copies the stored color bytes unchanged, so its
output is all-zero only when those stored bytes are zero. -/
theorem c5_zero_alpha_amended :
    (∀ (k : ℕ) (pix : List ℕ), pix.length = 4 * k →
      (∀ i, pix.getD (4 * i + 3) 0 = 0) →
      encodeRGBAStream pix = List.replicate (3 * k) 0) ∧
    (∀ (pixAt : ℤ → ℤ → ℕ × ℕ × ℕ × ℕ) (minX minY : ℤ) (dx dy : ℕ),
      (∀ x y, (pixAt x y).2.2.2 = 0) →
      encodeImageStream pixAt minX minY dx dy = List.replicate (3 * (dx * dy)) 0) ∧
    (∀ (k : ℕ) (pix : List ℕ), pix.length = 4 * k →
      (encodeNRGBAStream pix).length = 3 * k) := by
  refine ⟨encodeRGBAStream_zero_alpha, ?_, encodeNRGBAStream_length⟩
  intro pixAt minX minY dx dy ha
  rw [encodeImageStream]
  rw [flatMap_eq_replicate (k := 3 * dx) _ _ 0 ?_]
  · rw [List.length_range]
    congr 1
    ring
  · intro b _
    rw [flatMap_eq_replicate (k := 3) _ _ 0 ?_]
    · rw [List.length_range]
      congr 1
      ring
    · intro c _
      rw [genericPixel, if_neg (by simp [ha])]
      rfl

/-- Witness for `c5_zero_alpha_amended` on concrete 1×1 rasters. -/
theorem c5_zero_alpha_amended_witness :
    encodeRGBAStream [5, 6, 7, 0] = List.replicate (3 * 1) 0 ∧
    encodeImageStream (fun _ _ => (9, 9, 9, 0)) 0 0 1 1 = List.replicate (3 * (1 * 1)) 0 ∧
    (encodeNRGBAStream [7, 0, 0, 0]).length = 3 * 1 := by
  refine ⟨c5_zero_alpha_amended.1 1 [5, 6, 7, 0] rfl ?_,
    c5_zero_alpha_amended.2.1 (fun _ _ => (9, 9, 9, 0)) 0 0 1 1 (fun _ _ => rfl),
    c5_zero_alpha_amended.2.2 1 [7, 0, 0, 0] rfl⟩
  intro i
  cases i with
  | zero => rfl
  | succ j => exact List.getD_eq_default _ _ (by simp; omega)

/-! ## Luma/chroma (YCbCr) rasters -/

/-- The subsample-ratio tags of the decoded luma/chroma raster. -/
inductive SubsampleRatio where
  | r444
  | r422
  | r420
  | r440
  | r411
  | r410
deriving DecidableEq

/-- The chroma-plane index `(i, j)` used for output pixel `(x, y)`: the
switch in `encodeYCbCrStream` halves `j` and then falls through to halve `i`
for 4:2:0, halves only `i` for 4:2:2, and leaves both unchanged in every
other case. -/
def chromaIndex (ratio : SubsampleRatio) (x y : ℕ) : ℕ × ℕ :=
  match ratio with
  | SubsampleRatio.r420 => (x / 2, y / 2)
  | SubsampleRatio.r422 => (x / 2, y)
  | _ => (x, y)

/-- A decoded luma/chroma raster: three sample planes addressed through their
strides, the pixel dimensions, and the subsample ratio. -/
structure YCbCrImg where
  yPlane : ℕ → ℕ
  cbPlane : ℕ → ℕ
  crPlane : ℕ → ℕ
  yStride : ℕ
  cStride : ℕ
  dx : ℕ
  dy : ℕ
  ratio : SubsampleRatio

/-- `encodeYCbCrStream`: one RGB triple per output pixel, row-major.  The
luma sample is read at full resolution (`Y[y*YStride+x]`), the chroma samples
at the subsampled index (`Cb[j*CStride+i]`, `Cr[j*CStride+i]`), and the
triple is converted by the collaborator `toRGB` (`color.YCbCrToRGB` in the
source).  Each triple stands for the three bytes written at
`buf[bi..bi+2]`. -/
def encodeYCbCrStream (toRGB : ℕ → ℕ → ℕ → ℕ × ℕ × ℕ) (img : YCbCrImg) :
    List (ℕ × ℕ × ℕ) :=
  (List.range img.dy).flatMap (fun y => (List.range img.dx).map (fun x =>
    let ij := chromaIndex img.ratio x y
    toRGB (img.yPlane (y * img.yStride + x))
      (img.cbPlane (ij.2 * img.cStride + ij.1))
      (img.crPlane (ij.2 * img.cStride + ij.1))))

lemma len_flatMap_range {α : Type} (g : ℕ → ℕ → α) (dx : ℕ) :
    ∀ n, ((List.range n).flatMap (fun y => (List.range dx).map (g y))).length = n * dx := by
  intro n
  induction n with
  | zero => simp
  | succ m ih =>
    rw [List.range_succ, List.flatMap_append, List.length_append, ih]
    simp [Nat.succ_mul]

lemma get_flatMap_range {α : Type} (g : ℕ → ℕ → α) (dx : ℕ) :
    ∀ (dy y x : ℕ), y < dy → x < dx →
      ((List.range dy).flatMap (fun yy => (List.range dx).map (g yy)))[y * dx + x]? =
        some (g y x) := by
  intro dy
  induction dy with
  | zero => intro y x hy hx; omega
  | succ d ih =>
    intro y x hy hx
    rw [List.range_succ, List.flatMap_append]
    by_cases hyd : y < d
    · rw [List.getElem?_append_left (by rw [len_flatMap_range]; calc
          y * dx + x < y * dx + dx := by omega
          _ = (y + 1) * dx := by ring
          _ ≤ d * dx := Nat.mul_le_mul_right dx (by omega))]
      exact ih y x hyd hx
    · have hyde : y = d := by omega
      subst hyde
      rw [List.getElem?_append_right (by rw [len_flatMap_range]; omega)]
      rw [len_flatMap_range]
      rw [show y * dx + x - y * dx = x from by omega]
      simp [List.getElem?_map, List.getElem?_range hx]

/-- C8: for every luma/chroma raster and every in-bounds output pixel
`(x, y)`, the emitted triple is `toRGB` applied to the luma sample at the
full-resolution index `y*YStride + x` and the two chroma samples at the
reduced-plane index: `(x/2, y)` under horizontal-only (4:2:2) subsampling,
`(x/2, y/2)` under both-axes (4:2:0) subsampling, and `(x, y)` with no
subsampling (4:4:4). -/
theorem c8_ycbcr_sampling (toRGB : ℕ → ℕ → ℕ → ℕ × ℕ × ℕ) (img : YCbCrImg)
    (x y : ℕ) (hx : x < img.dx) (hy : y < img.dy) :
    (img.ratio = SubsampleRatio.r422 →
      (encodeYCbCrStream toRGB img)[y * img.dx + x]? =
        some (toRGB (img.yPlane (y * img.yStride + x))
          (img.cbPlane (y * img.cStride + x / 2))
          (img.crPlane (y * img.cStride + x / 2)))) ∧
    (img.ratio = SubsampleRatio.r420 →
      (encodeYCbCrStream toRGB img)[y * img.dx + x]? =
        some (toRGB (img.yPlane (y * img.yStride + x))
          (img.cbPlane (y / 2 * img.cStride + x / 2))
          (img.crPlane (y / 2 * img.cStride + x / 2)))) ∧
    (img.ratio = SubsampleRatio.r444 →
      (encodeYCbCrStream toRGB img)[y * img.dx + x]? =
        some (toRGB (img.yPlane (y * img.yStride + x))
          (img.cbPlane (y * img.cStride + x))
          (img.crPlane (y * img.cStride + x)))) := by
  have hget := get_flatMap_range
    (fun yy xx =>
      let ij := chromaIndex img.ratio xx yy
      toRGB (img.yPlane (yy * img.yStride + xx))
        (img.cbPlane (ij.2 * img.cStride + ij.1))
        (img.crPlane (ij.2 * img.cStride + ij.1)))
    img.dx img.dy y x hy hx
  refine ⟨?_, ?_, ?_⟩ <;> intro hr <;>
    rw [encodeYCbCrStream, hget] <;> simp [chromaIndex, hr]

/-- Witness for `c8_ycbcr_sampling`: a concrete 2×2 4:2:0 raster whose
planes are the identity samplers, evaluated at pixel `(1, 1)`. -/
theorem c8_ycbcr_sampling_witness :
    (encodeYCbCrStream (fun a b c => (a, b, c))
      ⟨fun k => k, fun k => k, fun k => k, 10, 7, 2, 2, SubsampleRatio.r420⟩)[1 * 2 + 1]? =
      some (11, 0, 0) := by
  have h := (c8_ycbcr_sampling (fun a b c => (a, b, c))
    ⟨fun k => k, fun k => k, fun k => k, 10, 7, 2, 2, SubsampleRatio.r420⟩
    1 1 (by decide) (by decide)).2.1 rfl
  simpa using h

/-! ## Arc approximation -/

/-- The sub-arc angle pair `(a1, a2)` for sub-arc `i` of the fixed 16-way
subdivision, after the degree-to-radian conversion, exactly as computed at
the top of `arcdata`. -/
def subArcAngles (pim : ℚ) (i : ℕ) (angle1 angle2 : ℚ) : ℚ × ℚ :=
  (angle1 * (pim / 180) +
      (angle2 * (pim / 180) - angle1 * (pim / 180)) * ((i : ℚ) / 16),
   angle1 * (pim / 180) +
      (angle2 * (pim / 180) - angle1 * (pim / 180)) * (((i : ℚ) + 1) / 16))

/-- The point of the axis-aligned ellipse centred at `(x, y)` with radii
`(w, h)` at parameter angle `a`. -/
def arcpoint (cosf sinf : ℚ → ℚ) (x y w h a : ℚ) : ℚ × ℚ :=
  (x + w * cosf a, y + h * sinf a)

/-- The six values `arcdata` returns for one sub-arc. -/
structure ArcSeg where
  x0 : ℚ
  y0 : ℚ
  cx : ℚ
  cy : ℚ
  x2 : ℚ
  y2 : ℚ
deriving DecidableEq

/-- `arcdata` from the source: the chord endpoints of sub-arc `i` of 16, and
the control point `(2*x1 - x0/2 - x2/2, 2*y1 - y0/2 - y2/2)` derived from
the sub-arc midpoint `(x1, y1)`.  The trigonometric functions and `π` are
parameters. -/
def arcdata (cosf sinf : ℚ → ℚ) (pim : ℚ) (i : ℕ)
    (x y w h angle1 angle2 : ℚ) : ArcSeg :=
  let a1d := angle1 * (pim / 180)
  let a2d := angle2 * (pim / 180)
  let p1 : ℚ := (i : ℚ) / 16
  let p2 : ℚ := ((i : ℚ) + 1) / 16
  let a1 := a1d + (a2d - a1d) * p1
  let a2 := a1d + (a2d - a1d) * p2
  let x0 := x + w * cosf a1
  let y0 := y + h * sinf a1
  let x1 := x + w * cosf (a1 + (a2 - a1) / 2)
  let y1 := y + h * sinf (a1 + (a2 - a1) / 2)
  let x2 := x + w * cosf a2
  let y2 := y + h * sinf a2
  ⟨x0, y0, 2 * x1 - x0 / 2 - x2 / 2, 2 * y1 - y0 / 2 - y2 / 2, x2, y2⟩

/-- One write of `FillArc` or `Arc`: the stroke preamble that `Arc` writes
once, or one sub-arc operator group. -/
inductive ArcChunk where
  | strokePre (color : String) (sw : ℚ)
  | fillGroup (color : String) (x y : ℚ) (seg : ArcSeg)
  | strokeGroup (seg : ArcSeg)
deriving DecidableEq

/-- `FillArc`: sixteen filled sub-arc groups, one per loop iteration. -/
def FillArc (cosf sinf : ℚ → ℚ) (pim : ℚ) (x y w h angle1 angle2 : ℚ)
    (color : String) : List ArcChunk :=
  (List.range 16).map (fun i =>
    ArcChunk.fillGroup color x y (arcdata cosf sinf pim i x y w h angle1 angle2))

/-- `Arc`: the stroke preamble followed by sixteen stroked sub-arc groups. -/
def Arc (cosf sinf : ℚ → ℚ) (pim : ℚ) (x y w h angle1 angle2 sw : ℚ)
    (color : String) : List ArcChunk :=
  ArcChunk.strokePre color sw :: (List.range 16).map (fun i =>
    ArcChunk.strokeGroup (arcdata cosf sinf pim i x y w h angle1 angle2))

/-- Whether a chunk is a sub-arc operator group (as opposed to the stroke
preamble). -/
def isSubArcGroup : ArcChunk → Bool
  | ArcChunk.strokePre _ _ => false
  | _ => true

/-- Number of sub-arc operator groups in a write trace. -/
def countSubArc (l : List ArcChunk) : ℕ := (l.filter isSubArcGroup).length

/-- C7: for every centre, radii, color and angle pair (in particular a 0° to
360° sweep), `FillArc` and `Arc` each emit exactly 16 sub-arc operator
groups, independent of the radii; and for every sub-arc `i` the emitted
endpoints are the ellipse points at the sub-arc's endpoint angles while the
control point is `C = 2M - P0/2 - P2/2` where `P0`, `P2` are the chord
endpoints and `M` is the ellipse point at the sub-arc's midpoint angle. -/
theorem c7_sixteen_subarcs (cosf sinf : ℚ → ℚ) (pim x y w h angle1 angle2 sw : ℚ)
    (color : String) :
    countSubArc (FillArc cosf sinf pim x y w h angle1 angle2 color) = 16 ∧
    countSubArc (Arc cosf sinf pim x y w h angle1 angle2 sw color) = 16 ∧
    ∀ i : ℕ,
      (arcdata cosf sinf pim i x y w h angle1 angle2).x0 =
        (arcpoint cosf sinf x y w h (subArcAngles pim i angle1 angle2).1).1 ∧
      (arcdata cosf sinf pim i x y w h angle1 angle2).y0 =
        (arcpoint cosf sinf x y w h (subArcAngles pim i angle1 angle2).1).2 ∧
      (arcdata cosf sinf pim i x y w h angle1 angle2).x2 =
        (arcpoint cosf sinf x y w h (subArcAngles pim i angle1 angle2).2).1 ∧
      (arcdata cosf sinf pim i x y w h angle1 angle2).y2 =
        (arcpoint cosf sinf x y w h (subArcAngles pim i angle1 angle2).2).2 ∧
      (arcdata cosf sinf pim i x y w h angle1 angle2).cx =
        2 * (arcpoint cosf sinf x y w h
              (((subArcAngles pim i angle1 angle2).1 +
                (subArcAngles pim i angle1 angle2).2) / 2)).1 -
          (arcdata cosf sinf pim i x y w h angle1 angle2).x0 / 2 -
          (arcdata cosf sinf pim i x y w h angle1 angle2).x2 / 2 ∧
      (arcdata cosf sinf pim i x y w h angle1 angle2).cy =
        2 * (arcpoint cosf sinf x y w h
              (((subArcAngles pim i angle1 angle2).1 +
                (subArcAngles pim i angle1 angle2).2) / 2)).2 -
          (arcdata cosf sinf pim i x y w h angle1 angle2).y0 / 2 -
          (arcdata cosf sinf pim i x y w h angle1 angle2).y2 / 2 := by
  refine ⟨?_, ?_, ?_⟩
  · have hp : ∀ c ∈ (List.range 16).map (fun i =>
        ArcChunk.fillGroup color x y (arcdata cosf sinf pim i x y w h angle1 angle2)),
        isSubArcGroup c = true := by
      intro c hc
      obtain ⟨i, _, rfl⟩ := List.mem_map.mp hc
      rfl
    rw [FillArc, countSubArc, List.filter_eq_self.mpr hp]
    simp
  · have hp : ∀ c ∈ (List.range 16).map (fun i =>
        ArcChunk.strokeGroup (arcdata cosf sinf pim i x y w h angle1 angle2)),
        isSubArcGroup c = true := by
      intro c hc
      obtain ⟨i, _, rfl⟩ := List.mem_map.mp hc
      rfl
    rw [Arc, countSubArc, List.filter_cons]
    simp only [isSubArcGroup, Bool.false_eq_true, if_false]
    rw [List.filter_eq_self.mpr hp]
    simp
  · intro i
    have hmid : angle1 * (pim / 180) +
          (angle2 * (pim / 180) - angle1 * (pim / 180)) * ((i : ℚ) / 16) +
          (angle1 * (pim / 180) +
              (angle2 * (pim / 180) - angle1 * (pim / 180)) * (((i : ℚ) + 1) / 16) -
            (angle1 * (pim / 180) +
              (angle2 * (pim / 180) - angle1 * (pim / 180)) * ((i : ℚ) / 16))) / 2 =
        (angle1 * (pim / 180) +
            (angle2 * (pim / 180) - angle1 * (pim / 180)) * ((i : ℚ) / 16) +
          (angle1 * (pim / 180) +
            (angle2 * (pim / 180) - angle1 * (pim / 180)) * (((i : ℚ) + 1) / 16))) / 2 := by
      ring
    simp only [arcdata, arcpoint, subArcAngles]
    rw [hmid]
    simp

/-! ## Image placement -/

/-- A decoded in-memory raster, tagged with its pixel encoding, as the type
switch in `imagestream` distinguishes it. -/
inductive Raster where
  | rgba (pix : List ℕ)
  | nrgba (pix : List ℕ)
  | ycbcr (img : YCbCrImg)
  | generic (pixAt : ℤ → ℤ → ℕ × ℕ × ℕ × ℕ) (minX minY : ℤ) (dx dy : ℕ)

/-- The pixel bytes `imagestream` writes for a successfully decoded raster:
the type switch dispatches to the four encoders (the YCbCr triples are the
three bytes written per pixel). -/
def rasterBytes (toRGB : ℕ → ℕ → ℕ → ℕ × ℕ × ℕ) : Raster → List ℕ
  | Raster.rgba pix => encodeRGBAStream pix
  | Raster.nrgba pix => encodeNRGBAStream pix
  | Raster.ycbcr img =>
    (encodeYCbCrStream toRGB img).flatMap (fun t => [t.1, t.2.1, t.2.2])
  | Raster.generic pixAt minX minY dx dy => encodeImageStream pixAt minX minY dx dy

/-- `imagestream`: decodes the reader and writes the pixel bytes.  When
decoding fails, `img` is the nil interface, the type switch falls into the
default branch and `encodeImageStream` dereferences the nil image
(`img.Bounds()`), a runtime panic modelled as `none`; nothing is written in
that case.  On success the bytes are written and a nil error returned. -/
def imagestream (toRGB : ℕ → ℕ → ℕ → ℕ × ℕ × ℕ) (dec : Except Unit Raster) :
    Option (List ℕ) :=
  match dec with
  | Except.error _ => none
  | Except.ok r => some (rasterBytes toRGB r)

/-- One write performed by `Image` on the document writer. -/
inductive ImgChunk where
  | inlineHeader (fw fh x y : ℚ) (w h : ℤ)
  | idMarker
  | pixelBytes (bs : List ℕ)
  | eiMarker
deriving DecidableEq

/-- How an `Image` call terminates: normally, by the early return on open
failure, or by the panic of the nil-image dereference on decode failure. -/
inductive ImgOutcome where
  | ok
  | earlyReturn
  | panicked
deriving DecidableEq

/-- `Image` from the source: on open failure it returns with nothing written;
otherwise it writes the inline-image begin marker with its metadata
(`inlinefmt`), then the `ID ` marker, then runs `imagestream`; only when that
succeeds (decode ok, nil error) is the ` EI\nQ\n` end marker written. -/
def Image (toRGB : ℕ → ℕ → ℕ → ℕ × ℕ × ℕ) (openRes : Option (Except Unit Raster))
    (x y : ℚ) (width height : ℤ) (scale : ℚ) : List ImgChunk × ImgOutcome :=
  match openRes with
  | none => ([], ImgOutcome.earlyReturn)
  | some dec =>
    let fw := (width : ℚ) * (scale / 100)
    let fh := (height : ℚ) * (scale / 100)
    let pre := [ImgChunk.inlineHeader fw fh x y width height, ImgChunk.idMarker]
    match imagestream toRGB dec with
    | none => (pre, ImgOutcome.panicked)
    | some bs => (pre ++ [ImgChunk.pixelBytes bs, ImgChunk.eiMarker], ImgOutcome.ok)

/-- C2: evaluation of `Image` at a failing input.  When the resource opens
but cannot be decoded, `Image` has already written the inline-image begin
marker, metadata and `ID ` marker, and it aborts without the `EI` end
marker: the writer is left holding a non-empty, unterminated inline-image
block, contrary to the all-or-nothing requirement.  (On open failure the
claim holds: nothing is written.) -/
theorem c2_image_partial_block :
    (Image (fun a b c => (a, b, c)) (some (Except.error ())) 0 0 8 8 100).1 =
      [ImgChunk.inlineHeader 8 8 0 0 8 8, ImgChunk.idMarker] ∧
    (Image (fun a b c => (a, b, c)) (some (Except.error ())) 0 0 8 8 100).1 ≠ [] ∧
    ImgChunk.eiMarker ∉ (Image (fun a b c => (a, b, c)) (some (Except.error ())) 0 0 8 8 100).1 ∧
    (Image (fun a b c => (a, b, c)) (some (Except.error ())) 0 0 8 8 100).2 =
      ImgOutcome.panicked ∧
    (Image (fun a b c => (a, b, c)) none 0 0 8 8 100).1 = [] := by
  refine ⟨?_, by simp [Image, imagestream], ?_, rfl, rfl⟩
  · simp [Image, imagestream]
  · simp [Image, imagestream]

end Pdfgen
